import Mathlib

/-!
Shallow embedding of the identity-resolution and panel-assignment core of the
prh-warehouse repository.

Identity resolution is embedded from src/ingest/util/prw_id_utils.py
(prw_id_base, prw_id_ensure_unique, calc_prw_id).  DataFrame id columns are
lists of (index label, id value) pairs; the unbounded while loops of the source
become fuel-indexed recursions returning an Option, where none means the loop
had not finished within the given fuel bound.

Panel assignment is embedded from src/ingest/transform_patient_panel.py
(transform_add_peds_panels, transform_add_other_panels).  DataFrames become
lists of records; the wall-clock reference instants become an explicit Clock
record carrying the orderings that hold between the real offsets.
-/

/-- Modelled from the spec: the repository imports a module named fnv
(from util import fnv) whose file is not under src/.  The spec describes it as
"a 32-bit non-cryptographic hash (e.g. FNV-1a)" of the encoded input string.
This is 32-bit FNV-1a over the character codes of the string; every string the
repository hashes is ASCII, where UTF-8 bytes coincide with character codes. -/
def fnvHash32 (s : String) : Nat :=
  s.data.foldl (fun h c => ((h ^^^ c.toNat) * 16777619) % 2 ^ 32) 2166136261

/-- Salt constant from prw_id_base in prw_id_utils.py. -/
def PRW_ID_SALT : String := "560f80d9-b01f-4bda-84fd-1b39c56c5be5"

/-- prw_id_base from prw_id_utils.py: the decimal-string rendering of the
32-bit hash of salt#patient_id. -/
def prw_id_base (patient_id : String) : String :=
  toString (fnvHash32 (PRW_ID_SALT ++ "#" ++ patient_id))

/-- Labels of the rows flagged by pandas duplicated() with keep=first: a row is
flagged when an earlier row holds the same id value.  seen accumulates the
values already passed. -/
def dupIdxAux (seen : List String) : List (Nat × String) → List Nat
  | [] => []
  | (i, v) :: rest =>
    if v ∈ seen then i :: dupIdxAux seen rest else dupIdxAux (v :: seen) rest

/-- df[id_col].duplicated() of prw_id_ensure_unique, as the list of flagged
row labels in row order. -/
def duplicatedIdx (rows : List (Nat × String)) : List Nat := dupIdxAux [] rows

/-- df.at[i, id_col] = f(old value): rewrite the id of the row labelled i. -/
def updateAt (rows : List (Nat × String)) (i : Nat) (f : String → String) :
    List (Nat × String) :=
  rows.map (fun r => if r.1 = i then (r.1, f r.2) else r)

/-- One pass of the while body of prw_id_ensure_unique: for idx in
duplicates.index[1:], rehash that row from its current value and its label.
Note the [1:], taken directly from the source: the first flagged duplicate row
is never rehashed. -/
def ensureUniqueStep (rehash : String → Nat → String) (rows : List (Nat × String)) :
    List (Nat × String) :=
  ((duplicatedIdx rows).drop 1).foldl (fun r i => updateAt r i (fun v => rehash v i)) rows

/-- The while loop of prw_id_ensure_unique, fuel-indexed.  The loop runs while
the id column has any duplicate; none means it had not terminated within the
fuel bound. -/
def prw_id_ensure_unique (rehash : String → Nat → String) :
    Nat → List (Nat × String) → Option (List (Nat × String))
  | 0, rows => if duplicatedIdx rows = [] then some rows else none
  | fuel + 1, rows =>
    if duplicatedIdx rows = [] then some rows
    else prw_id_ensure_unique rehash fuel (ensureUniqueStep rehash rows)

/-- The rehash used inside prw_id_ensure_unique:
str(fnv.hash(f"{value}-{idx}".encode(), bits=32)). -/
def codeRehash (v : String) (i : Nat) : String := toString (fnvHash32 (v ++ "-" ++ toString i))

/-- The rehash used in the collision loop of calc_prw_id:
str(fnv.hash(row[id_col].encode(), bits=32)). -/
def rehashExisting (v : String) : String := toString (fnvHash32 v)

/-- Labels of new-id rows whose id already occurs among the existing mapping
ids: new_ids_df[new_ids_df[id_col].isin(src_id_to_id_df[id_col])]. -/
def collisionIdx (existingIds : List String) (rows : List (Nat × String)) : List Nat :=
  (rows.filter (fun r => decide (r.2 ∈ existingIds))).map Prod.fst

/-- One pass of the collision-rehash for-loop of calc_prw_id: every row whose
id collides with an existing id is rehashed from its current value. -/
def collisionStep (existingIds : List String) (rows : List (Nat × String)) :
    List (Nat × String) :=
  rows.map (fun r => if r.2 ∈ existingIds then (r.1, rehashExisting r.2) else r)

/-- The while loop over collisions in calc_prw_id, fuel-indexed: rehash the
colliding rows, re-run prw_id_ensure_unique, and re-check for collisions. -/
def collisionLoop (existingIds : List String) :
    Nat → List (Nat × String) → Option (List (Nat × String))
  | 0, rows => if collisionIdx existingIds rows = [] then some rows else none
  | fuel + 1, rows =>
    if collisionIdx existingIds rows = [] then some rows
    else
      match prw_id_ensure_unique codeRehash fuel (collisionStep existingIds rows) with
      | none => none
      | some rows2 => collisionLoop existingIds fuel rows2

/-- Left-merge lookup of a source id in the persistent mapping rows
(source_id, prw_id). -/
def lookupMap (m : List (String × String)) (s : String) : Option String :=
  (m.find? (fun r => decide (r.1 = s))).map Prod.snd

/-- calc_prw_id of prw_id_utils.py, the branch taking an existing
src_id-to-id mapping, fuel-indexed.  The batch rows are indexed by position
(the DataFrame RangeIndex after the merge).  Returns the per-row assignments
(source_id, prw_id) together with the new mapping rows that the caller appends
to the persistent store, or none when one of the rehash loops did not finish. -/
def calc_prw_id (fuel : Nat) (batch : List String) (existing : List (String × String)) :
    Option (List (String × String) × List (String × String)) :=
  let missing := batch.enum.filter (fun p => (lookupMap existing p.2).isNone)
  let cands := missing.map (fun p => (p.1, prw_id_base p.2))
  match prw_id_ensure_unique codeRehash fuel cands with
  | none => none
  | some rows1 =>
    match collisionLoop (existing.map Prod.snd) fuel rows1 with
    | none => none
    | some rows2 =>
      let newRows := (missing.map Prod.snd).zip (rows2.map Prod.snd)
      let assignments := batch.map (fun s =>
        (s, match newRows.find? (fun r => decide (r.1 = s)) with
            | some r => r.2
            | none => (lookupMap existing s).getD ""))
      some (assignments, newRows)

/-- Encounter row as read by transform_patient_panel.py.  Dates are abstract
Nat instants (pandas Timestamps are totally ordered). -/
structure Encounter where
  prw_id : String
  encounter_date : Nat
  dept : String
  service_provider : String
  encounter_type : String
  appt_status : String
  diagnoses : String
deriving DecidableEq

/-- Patient row: pseudonymous id, age, and the two optional panel fields. -/
structure Patient where
  prw_id : String
  age : Int
  panel_provider : Option String
  panel_location : Option String
deriving DecidableEq

/-- The reference instants pd.Timestamp.now() - DateOffset(...) computed by
transform_patient_panel.py, as explicit parameters.  The inequalities are the
orderings that hold between the real offsets (3 years ago comes before
2 years ago, which comes before 15 months ago, which comes before 1 year
ago). -/
structure Clock where
  threeYearsAgo : Nat
  twoYearsAgo : Nat
  oneYearAgo : Nat
  fifteenMonthsAgo : Nat
  h32 : threeYearsAgo ≤ twoYearsAgo
  h215 : twoYearsAgo ≤ fifteenMonthsAgo
  h151 : fifteenMonthsAgo ≤ oneYearAgo

/-- PEDS_LOCATIONS of transform_patient_panel.py. -/
def PEDS_LOCATIONS : List String :=
  ["CC WPL PALOUSE PEDIATRICS PULLMAN", "CC WPL PALOUSE PEDIATRICS MOSCOW"]

/-- PROVIDER_TO_LOCATION of transform_patient_panel.py. -/
def PROVIDER_TO_LOCATION : List (String × String) :=
  [("FROSTAD, MICHAEL", "Palouse Pediatrics"),
   ("GORDON, METHUEL", "Palouse Pediatrics"),
   ("HRYNIEWICZ, KATHRYN", "Palouse Pediatrics"),
   ("LEE, JONATHAN", "Palouse Pediatrics"),
   ("LEE, JONATHAN J", "Palouse Pediatrics"),
   ("RINALDI, MACKENZIE CLAIRE", "Palouse Pediatrics"),
   ("SHIELDS, MARICARMEN", "Palouse Pediatrics"),
   ("ADKINS, BENJAMIN J", "Pullman Family Medicine"),
   ("BRODSKY, KAZ B", "Pullman Family Medicine"),
   ("CARGILL, TERESA", "Pullman Family Medicine"),
   ("DAVIS, JENNIFER", "Pullman Family Medicine"),
   ("GUIDA, KIMBERLEY", "Pullman Family Medicine"),
   ("SANGHA, DILDEEP", "Pullman Family Medicine"),
   ("SMITH, ANGELINE ELIZABETH", "Pullman Family Medicine"),
   ("HALL, STEPHEN", "Palouse Medical"),
   ("IACOBELLI, CHRISTOPHER J", "Palouse Medical"),
   ("TRICOLA, KASSANDRA M", "Palouse Medical"),
   ("GARCIA, CLARA E", "Palouse Medical"),
   ("FOSBACK, STEPHANIE M", "Palouse Medical"),
   ("GREGORY, NANCY", "Palouse Medical"),
   ("HOWELL, RICHARD L", "Palouse Medical"),
   ("AIYENOWO, JOSEPH O", "Palouse Medical"),
   ("BURKE, MORGAN ELIZABETH", "Palouse Medical"),
   ("HOOVER, MARK A", "Palouse Medical"),
   ("LEIDER, MORGAN", "Palouse Medical"),
   ("HARRIS, BRENNA R", "Residency"),
   ("MADER, KELSEY", "Residency"),
   ("SHAKIR, TUARUM N", "Residency"),
   ("THOMPSON, MOLLY", "Residency"),
   ("WARD, JEFFREY LOREN", "Residency"),
   ("OLAWUYI, DAMOLA BOLUTIFE", "Residency"),
   ("PERIN, KARLY", "Residency"),
   ("WEBB, DRUE", "Residency"),
   ("WEBBER, MOLLY", "Residency"),
   ("YOUNES, MOHAMMED", "Residency")]

/-- WELL_ENCOUNTER_TYPES of transform_patient_panel.py. -/
def WELL_ENCOUNTER_TYPES : List String :=
  ["CC WELL BABY", "CC WELL CHILD", "CC WELLNESS", "CC MEDICARE ANNUAL WELLNESS",
   "CC PHYSICAL", "CC WELL WOMEN", "CC DOT PHYSICAL", "CC MEDICARE SUB AN WELL",
   "CC SPORTS PHYSICAL", "CC FAA PHYSICAL"]

/-- WELL_DX_STRINGS of transform_patient_panel.py. -/
def WELL_DX_STRINGS : List String :=
  ["well baby", "well child", "well adolescent", "well woman", "well man",
   "wellness visit", "annual wellness", "well exam", "wellness exam"]

/-- The characters occurring in WELL_DX_STRINGS.  WELL_DX_REGEX is built as
"|".join(f"[{code}]" for code in WELL_DX_STRINGS), so each alternative of the
regex is a character class matching any single one of the keyword's
characters. -/
def wellDxChars : List Char := (WELL_DX_STRINGS.map String.data).foldr List.append []

/-- Semantics of diagnoses.str.match(WELL_DX_REGEX, case=False): re.match
anchors at the start of the text, and the regex is an alternation of
character classes, so the whole pattern matches exactly when the first
character of the text is, case-insensitively, one of the characters of some
keyword. -/
def matchWellDxRegex (s : String) : Bool :=
  match s.data with
  | [] => false
  | c :: _ => wellDxChars.any (fun k => k.toLower == c.toLower)

/-- is_peds_encounter of transform_add_peds_panels:
encounters_df["dept"].isin(PEDS_LOCATIONS). -/
def is_peds_encounter (e : Encounter) : Bool := decide (e.dept ∈ PEDS_LOCATIONS)

/-- is_well_visit as computed by the code, in transform_add_peds_panels and in
the 3rd-cut filter of transform_add_other_panels:
encounter_type.isin(WELL_ENCOUNTER_TYPES) | diagnoses.str.match(WELL_DX_REGEX, case=False). -/
def is_well_visit (e : Encounter) : Bool :=
  decide (e.encounter_type ∈ WELL_ENCOUNTER_TYPES) || matchWellDxRegex e.diagnoses

/-- Case-insensitive substring test on character lists (needle occurs as a
contiguous substring of hay). -/
def containsCI : List Char → List Char → Bool
  | [], needle => needle.isEmpty
  | c :: rest, needle => needle.isPrefixOf (c :: rest) || containsCI rest needle

/-- Case-insensitive substring containment of a keyword in a text. -/
def containsKeywordCI (text kw : String) : Bool :=
  containsCI (text.data.map Char.toLower) (kw.data.map Char.toLower)

/-- Modelled from the spec's words, for comparison with is_well_visit (the
refinement target of the well-visit classification): encounter_type in
WELL_VISIT_TYPES, or the diagnosis text contains some well-visit keyword as a
case-insensitive substring. -/
def is_well_spec (e : Encounter) : Bool :=
  decide (e.encounter_type ∈ WELL_ENCOUNTER_TYPES) ||
    WELL_DX_STRINGS.any (fun kw => containsKeywordCI e.diagnoses kw)

/-- Insert an encounter into a list sorted by date descending, after any
earlier encounter with an equal or later date (stable descending insertion). -/
def insertByDate (e : Encounter) : List Encounter → List Encounter
  | [] => [e]
  | x :: xs =>
    if e.encounter_date ≤ x.encounter_date then x :: insertByDate e xs
    else e :: x :: xs

/-- sort_values("encounter_date", ascending=False) as a stable insertion
sort by date descending. -/
def sortByDateDesc (l : List Encounter) : List Encounter := l.foldr insertByDate []

/-- groupby("prw_id"): the rows of one patient, in frame order. -/
def patientSlice (E : List Encounter) (pid : String) : List Encounter :=
  E.filter (fun e => decide (e.prw_id = pid))

/-- The 3-year restriction applied at the top of transform_add_peds_panels. -/
def threeYearEncounters (c : Clock) (E : List Encounter) : List Encounter :=
  E.filter (fun e => decide (c.threeYearsAgo ≤ e.encounter_date))

/-- recent_by_patient: a patient's encounters within the trailing 2 years. -/
def recentOf (c : Clock) (E3 : List Encounter) (pid : String) : List Encounter :=
  (patientSlice E3 pid).filter (fun e => decide (c.twoYearsAgo ≤ e.encounter_date))

/-- last_year_by_patient: a patient's encounters within the trailing 1 year. -/
def lastYearOf (c : Clock) (E3 : List Encounter) (pid : String) : List Encounter :=
  (patientSlice E3 pid).filter (fun e => decide (c.oneYearAgo ≤ e.encounter_date))

/-- Rule 1 of transform_add_peds_panels: at least 3 peds encounters in the
last 2 years and the 3 most recent of those 2 years all at peds.  The leading
guard is the prw_id in recent_by_patient membership test. -/
def meetsRule1 (c : Clock) (E3 : List Encounter) (pid : String) : Bool :=
  let recent := recentOf c E3 pid
  !recent.isEmpty && decide (3 ≤ recent.countP is_peds_encounter) &&
    ((sortByDateDesc recent).take 3).all is_peds_encounter

/-- Rule 2 of transform_add_peds_panels: some well visit in the last 2 years,
the most recent one at peds, and at least one of the 3 most recent encounters
of the 2-year window at peds. -/
def meetsRule2 (c : Clock) (E3 : List Encounter) (pid : String) : Bool :=
  let recent := recentOf c E3 pid
  !recent.isEmpty &&
    match (sortByDateDesc (recent.filter is_well_visit)).head? with
    | none => false
    | some lastWell =>
      is_peds_encounter lastWell && ((sortByDateDesc recent).take 3).any is_peds_encounter

/-- Rule 3 of transform_add_peds_panels: no well visit in the last 2 years,
at least 3 encounters in the last 1 year, a strict majority of those at peds
(peds_visits > len/2 in exact rational arithmetic is len < 2*peds_visits),
and at least one of the 3 most recent last-year encounters at peds.  The
guards mirror the membership tests of the source, including the vestigial
prw_id in all_by_patient check. -/
def meetsRule3 (c : Clock) (E3 : List Encounter) (pid : String) : Bool :=
  let recent := recentOf c E3 pid
  let lastYear := lastYearOf c E3 pid
  !recent.isEmpty && !lastYear.isEmpty &&
    (recent.filter is_well_visit).isEmpty && decide (3 ≤ lastYear.length) &&
    decide (lastYear.length < 2 * lastYear.countP is_peds_encounter) &&
    !(patientSlice E3 pid).isEmpty &&
    ((sortByDateDesc lastYear).take 3).any is_peds_encounter

/-- Rule 4 of transform_add_peds_panels: remove under-3 patients with no peds
encounter in the last 15 months.  The source only checks patients present in
recent_by_patient, and checks the 15-month window inside the 2-year frame. -/
def shouldRemoveRule4 (c : Clock) (E3 : List Encounter) (p : Patient) : Bool :=
  let recent := recentOf c E3 p.prw_id
  decide (p.age < 3) && !recent.isEmpty &&
    (recent.filter
      (fun e => decide (c.fifteenMonthsAgo ≤ e.encounter_date) && is_peds_encounter e)).isEmpty

/-- should_empanel: (rule 1 or rule 2 or rule 3) and not rule 4. -/
def shouldEmpanel (c : Clock) (E3 : List Encounter) (p : Patient) : Bool :=
  (meetsRule1 c E3 p.prw_id || meetsRule2 c E3 p.prw_id || meetsRule3 c E3 p.prw_id) &&
    !shouldRemoveRule4 c E3 p

/-- A patient with both panel fields unset: the filter
patients_df[panel_provider.isna() & panel_location.isna()] used by both
stages. -/
def isCandidate (p : Patient) : Bool := p.panel_provider.isNone && p.panel_location.isNone

/-- empaneled_patients of transform_add_peds_panels: candidate patients
meeting a rule and not removed by rule 4. -/
def empaneledIds (c : Clock) (E : List Encounter) (P : List Patient) : List String :=
  ((P.filter isCandidate).filter
      (fun p => shouldEmpanel c (threeYearEncounters c E) p)).map Patient.prw_id

/-- transform_add_peds_panels: set panel_location = "Palouse Pediatrics" on the
rows whose prw_id is in empaneled_patients; all other rows are untouched. -/
def transform_add_peds_panels (c : Clock) (E : List Encounter) (P : List Patient) :
    List Patient :=
  P.map (fun p =>
    if p.prw_id ∈ empaneledIds c E P then
      { p with panel_location := some "Palouse Pediatrics" }
    else p)

/-- Lookup of a provider in the PROVIDER_TO_LOCATION reference map. -/
def lookupLoc (provider : String) : Option String :=
  (PROVIDER_TO_LOCATION.find? (fun r => decide (r.1 = provider))).map Prod.snd

/-- recent_encounters of transform_add_other_panels after its three filters:
encounters of currently-unassigned patients, within the trailing 2 years,
whose service_provider is a key of the PROVIDER_TO_LOCATION map. -/
def recognizedRecent (c : Clock) (E : List Encounter) (P : List Patient) :
    List Encounter :=
  (((E.filter (fun e => decide (e.prw_id ∈ (P.filter isCandidate).map Patient.prw_id))).filter
        (fun e => decide (c.twoYearsAgo ≤ e.encounter_date))).filter
    (fun e => (lookupLoc e.service_provider).isSome))

/-- The patient ids appearing in provider_counts: patients with at least one
qualifying encounter.  The row order of the pandas group-by (sorted keys) is
immaterial to every property proved below, so first/last-occurrence order of
dedup is not significant. -/
def pidsWithCounts (rR : List Encounter) : List String :=
  (rR.map Encounter.prw_id).dedup

/-- The distinct qualifying providers of one patient. -/
def provsOf (rR : List Encounter) (pid : String) : List String :=
  ((patientSlice rR pid).map Encounter.service_provider).dedup

/-- provider_count of patient_provider_counts: number of distinct qualifying
providers of a patient. -/
def distinctProvCount (rR : List Encounter) (pid : String) : Nat :=
  (provsOf rR pid).length

/-- total_visits of the 2nd cut: a patient's number of qualifying visits. -/
def totalVisits (rR : List Encounter) (pid : String) : Nat :=
  (patientSlice rR pid).length

/-- visits of provider_counts: a patient's number of qualifying visits with
one provider. -/
def visitsWith (rR : List Encounter) (pid provider : String) : Nat :=
  (patientSlice rR pid).countP (fun e => decide (e.service_provider = provider))

/-- 1st cut: patients who have seen exactly one qualifying provider, assigned
to that provider (their single row of provider_counts). -/
def cut1Assignments (rR : List Encounter) : List (String × String) :=
  ((pidsWithCounts rR).filter (fun pid => decide (distinctProvCount rR pid = 1))).map
    (fun pid => (pid, ((provsOf rR pid).head?).getD ""))

/-- multi_provider_patients: patients with more than one distinct qualifying
provider. -/
def multiProviderPids (rR : List Encounter) : List String :=
  (pidsWithCounts rR).filter (fun pid => decide (1 < distinctProvCount rR pid))

/-- The majority provider of the 2nd cut: a provider holding strictly more
than half of the patient's qualifying visits.  max_visits > total/2 in the
source is total < 2*max in exact arithmetic, and at most one provider can
satisfy it, so idxmax resolves to this provider whenever the test passes. -/
def majorityProvider (rR : List Encounter) (pid : String) : Option String :=
  (provsOf rR pid).find? (fun pr => decide (totalVisits rR pid < 2 * visitsWith rR pid pr))

/-- 2nd cut: multi-provider patients with a strict-majority provider. -/
def cut2Assignments (rR : List Encounter) : List (String × String) :=
  (multiProviderPids rR).filterMap
    (fun pid => (majorityProvider rR pid).map (fun pr => (pid, pr)))

/-- The provider of a patient's most recent qualifying well visit, if any. -/
def lastWellProvider (rR : List Encounter) (pid : String) : Option String :=
  ((sortByDateDesc ((patientSlice rR pid).filter is_well_visit)).head?).map
    Encounter.service_provider

/-- patients_after_2nd_cut: multi-provider patients not assigned by cut 2. -/
def pidsAfterCut2 (rR : List Encounter) : List String :=
  (multiProviderPids rR).filter
    (fun pid => !(cut2Assignments rR).any (fun a => decide (a.1 = pid)))

/-- 3rd cut: remaining patients assigned to the provider of their most recent
well visit, when one exists. -/
def cut3Assignments (rR : List Encounter) : List (String × String) :=
  (pidsAfterCut2 rR).filterMap
    (fun pid => (lastWellProvider rR pid).map (fun pr => (pid, pr)))

/-- The provider of a patient's most recent qualifying encounter, if any. -/
def lastProviderSeen (rR : List Encounter) (pid : String) : Option String :=
  ((sortByDateDesc (patientSlice rR pid)).head?).map Encounter.service_provider

/-- patients_after_3rd_cut: patients still unassigned after cut 3. -/
def pidsAfterCut3 (rR : List Encounter) : List String :=
  (pidsAfterCut2 rR).filter
    (fun pid => !(cut3Assignments rR).any (fun a => decide (a.1 = pid)))

/-- 4th cut: remaining patients assigned to the last provider seen. -/
def cut4Assignments (rR : List Encounter) : List (String × String) :=
  (pidsAfterCut3 rR).filterMap
    (fun pid => (lastProviderSeen rR pid).map (fun pr => (pid, pr)))

/-- all_assignments: the concatenation of the four per-cut assignment
tables. -/
def allAssignments (rR : List Encounter) : List (String × String) :=
  cut1Assignments rR ++ cut2Assignments rR ++ cut3Assignments rR ++ cut4Assignments rR

/-- transform_add_other_panels: look up each still-unassigned patient in
all_assignments (at most one row per patient, proved below, so the pandas
left-merge is a first-match lookup); assigned patients receive the provider
and its PROVIDER_TO_LOCATION entry, settled patients are untouched. -/
def transform_add_other_panels (c : Clock) (E : List Encounter) (P : List Patient) :
    List Patient :=
  let asg := allAssignments (recognizedRecent c E P)
  P.map (fun p =>
    if isCandidate p then
      match asg.find? (fun a => decide (a.1 = p.prw_id)) with
      | some a => { p with panel_provider := some a.2, panel_location := lookupLoc a.2 }
      | none => p
    else p)

/-- If dupIdxAux flags nothing, the id values are pairwise distinct and none
of them occurs in the seen accumulator. -/
theorem dupIdxAux_eq_nil_strong :
    ∀ (rows : List (Nat × String)) (seen : List String),
      dupIdxAux seen rows = [] →
        (rows.map Prod.snd).Nodup ∧ ∀ v ∈ rows.map Prod.snd, v ∉ seen := by
  intro rows
  induction rows with
  | nil => intro seen _; simp
  | cons r rest ih =>
    intro seen h
    obtain ⟨i, v⟩ := r
    by_cases hv : v ∈ seen
    · simp [dupIdxAux, hv] at h
    · rw [dupIdxAux, if_neg hv] at h
      obtain ⟨hnd, hs⟩ := ih (v :: seen) h
      refine ⟨?_, ?_⟩
      · simp only [List.map_cons, List.nodup_cons]
        exact ⟨fun hm => (hs v hm) (by simp), hnd⟩
      · intro w hw
        simp only [List.map_cons, List.mem_cons] at hw
        rcases hw with rfl | hw
        · exact hv
        · intro hws
          exact hs w hw (by simp [hws])

/-- A duplicate-free verdict of duplicated() means the id column is Nodup. -/
theorem nodup_snd_of_duplicatedIdx_eq_nil {rows : List (Nat × String)}
    (h : duplicatedIdx rows = []) : (rows.map Prod.snd).Nodup :=
  (dupIdxAux_eq_nil_strong rows [] h).1

/-- Rewriting one row's id preserves the label column. -/
theorem updateAt_map_fst (rows : List (Nat × String)) (i : Nat) (f : String → String) :
    (updateAt rows i f).map Prod.fst = rows.map Prod.fst := by
  induction rows with
  | nil => rfl
  | cons r rest ih =>
    simp only [updateAt, List.map_cons] at ih ⊢
    by_cases h : r.1 = i
    · simp only [if_pos h]; rw [ih]
    · simp only [if_neg h]; rw [ih]

/-- Folding row updates over any label list preserves the label column. -/
theorem foldl_updateAt_map_fst (g : Nat → String → String) :
    ∀ (ds : List Nat) (rows : List (Nat × String)),
      ((ds.foldl (fun r i => updateAt r i (g i)) rows).map Prod.fst) = rows.map Prod.fst := by
  intro ds
  induction ds with
  | nil => intro rows; rfl
  | cons d ds ih => intro rows; rw [List.foldl_cons, ih, updateAt_map_fst]

/-- One while-body pass of prw_id_ensure_unique preserves the label column. -/
theorem ensureUniqueStep_map_fst (rehash : String → Nat → String)
    (rows : List (Nat × String)) :
    (ensureUniqueStep rehash rows).map Prod.fst = rows.map Prod.fst :=
  foldl_updateAt_map_fst (fun i v => rehash v i) _ rows

/-- Exit conditions of prw_id_ensure_unique: a completed run returns a
duplicate-free id column over the same labels. -/
theorem prw_id_ensure_unique_some (rehash : String → Nat → String) :
    ∀ (fuel : Nat) (rows out : List (Nat × String)),
      prw_id_ensure_unique rehash fuel rows = some out →
      (out.map Prod.snd).Nodup ∧ out.map Prod.fst = rows.map Prod.fst := by
  intro fuel
  induction fuel with
  | zero =>
    intro rows out h
    simp only [prw_id_ensure_unique] at h
    by_cases hd : duplicatedIdx rows = []
    · rw [if_pos hd] at h; cases h; exact ⟨nodup_snd_of_duplicatedIdx_eq_nil hd, rfl⟩
    · rw [if_neg hd] at h; cases h
  | succ n ih =>
    intro rows out h
    simp only [prw_id_ensure_unique] at h
    by_cases hd : duplicatedIdx rows = []
    · rw [if_pos hd] at h; cases h; exact ⟨nodup_snd_of_duplicatedIdx_eq_nil hd, rfl⟩
    · rw [if_neg hd] at h
      obtain ⟨h1, h2⟩ := ih _ _ h
      exact ⟨h1, by rw [h2, ensureUniqueStep_map_fst]⟩

/-- One collision-rehash pass preserves the label column. -/
theorem collisionStep_map_fst (Eids : List String) (rows : List (Nat × String)) :
    (collisionStep Eids rows).map Prod.fst = rows.map Prod.fst := by
  induction rows with
  | nil => rfl
  | cons r rest ih =>
    simp only [collisionStep, List.map_cons] at ih ⊢
    by_cases h : r.2 ∈ Eids
    · simp only [if_pos h]; rw [ih]
    · simp only [if_neg h]; rw [ih]

/-- An empty collision check means no row's id occurs among existing ids. -/
theorem collisionIdx_eq_nil {Eids : List String} {rows : List (Nat × String)}
    (h : collisionIdx Eids rows = []) : ∀ r ∈ rows, r.2 ∉ Eids := by
  intro r hr hmem
  have hf : r ∈ rows.filter (fun r => decide (r.2 ∈ Eids)) := by
    simp [List.mem_filter, hr, hmem]
  have := List.mem_map_of_mem Prod.fst hf
  rw [collisionIdx] at h
  rw [h] at this
  exact absurd this (List.not_mem_nil _)

/-- Exit conditions of the collision loop of calc_prw_id: a completed run
keeps the id column duplicate-free, leaves no id colliding with the existing
mapping, and preserves the labels. -/
theorem collisionLoop_some (Eids : List String) :
    ∀ (fuel : Nat) (rows out : List (Nat × String)),
      collisionLoop Eids fuel rows = some out →
      (rows.map Prod.snd).Nodup →
      ((out.map Prod.snd).Nodup ∧ (∀ r ∈ out, r.2 ∉ Eids) ∧
        out.map Prod.fst = rows.map Prod.fst) := by
  intro fuel
  induction fuel with
  | zero =>
    intro rows out h hnd
    simp only [collisionLoop] at h
    by_cases hc : collisionIdx Eids rows = []
    · rw [if_pos hc] at h; cases h; exact ⟨hnd, collisionIdx_eq_nil hc, rfl⟩
    · rw [if_neg hc] at h; cases h
  | succ n ih =>
    intro rows out h hnd
    simp only [collisionLoop] at h
    by_cases hc : collisionIdx Eids rows = []
    · rw [if_pos hc] at h; cases h; exact ⟨hnd, collisionIdx_eq_nil hc, rfl⟩
    · rw [if_neg hc] at h
      cases he : prw_id_ensure_unique codeRehash n (collisionStep Eids rows) with
      | none => rw [he] at h; cases h
      | some rows2 =>
        rw [he] at h
        obtain ⟨hnd2, hfst2⟩ := prw_id_ensure_unique_some codeRehash n _ _ he
        obtain ⟨a, b, cfst⟩ := ih rows2 out h hnd2
        exact ⟨a, b, by rw [cfst, hfst2, collisionStep_map_fst]⟩

/-- The fnv fold stays below 2^32 from any in-range accumulator. -/
theorem foldl_fnv_lt :
    ∀ (l : List Char) (h : Nat), h < 2 ^ 32 →
      l.foldl (fun h c => ((h ^^^ c.toNat) * 16777619) % 2 ^ 32) h < 2 ^ 32 := by
  intro l
  induction l with
  | nil => intro h hh; simpa using hh
  | cons c cs ih =>
    intro h hh
    rw [List.foldl_cons]
    exact ih _ (Nat.mod_lt _ (by norm_num))

/-- The modelled hash is a 32-bit value. -/
theorem fnvHash32_lt (s : String) : fnvHash32 s < 2 ^ 32 :=
  foldl_fnv_lt s.data 2166136261 (by norm_num)

/-- C1: for every batch and every injective existing mapping (including
batches whose candidate ids collide), whenever calc_prw_id completes, the
union of the existing mapping rows and the newly emitted rows has no
duplicate pseudonymous ids, so no two source ids share one. -/
theorem calc_prw_id_union_injective (fuel : Nat) (batch : List String)
    (existing : List (String × String)) (asg nr : List (String × String))
    (hinj : (existing.map Prod.snd).Nodup)
    (hrun : calc_prw_id fuel batch existing = some (asg, nr)) :
    ((existing ++ nr).map Prod.snd).Nodup := by
  simp only [calc_prw_id] at hrun
  split at hrun
  next => cases hrun
  next rows1 hA =>
    split at hrun
    next => cases hrun
    next rows2 hB =>
      rw [Option.some.injEq, Prod.mk.injEq] at hrun
      obtain ⟨h1, h2⟩ := hrun
      obtain ⟨hnd1, hfst1⟩ := prw_id_ensure_unique_some codeRehash fuel _ _ hA
      obtain ⟨hnd2, hnotin, hfst2⟩ :=
        collisionLoop_some (existing.map Prod.snd) fuel _ _ hB hnd1
      have hlen : rows2.length =
          ((batch.enum.filter (fun p => (lookupMap existing p.2).isNone)).map
            Prod.snd).length := by
        have l2 : (rows2.map Prod.fst).length = (rows1.map Prod.fst).length := by
          rw [hfst2]
        have l1 : (rows1.map Prod.fst).length =
            (((batch.enum.filter (fun p => (lookupMap existing p.2).isNone)).map
              (fun p => (p.1, prw_id_base p.2))).map Prod.fst).length := by
          rw [hfst1]
        simp only [List.length_map] at l1 l2 ⊢
        omega
      have hsnd : nr.map Prod.snd = rows2.map Prod.snd := by
        rw [← h2, List.map_snd_zip]
        rw [List.length_map]
        omega
      rw [List.map_append, hsnd]
      refine List.Nodup.append hinj hnd2 ?_
      intro a ha hb
      obtain ⟨r, hr, rfl⟩ := List.mem_map.mp hb
      exact hnotin r hr ha

/-- C2 divergence witness: on an id column holding one duplicated value (two
rows both with id "7"), duplicated() flags only the second row, so
duplicates.index[1:] is empty, the loop body rehashes nothing, and the while
loop of prw_id_ensure_unique never finishes: it yields none for every fuel
bound and every rehash function, while its docstring promises a unique id
column. -/
theorem prw_id_ensure_unique_diverges_on_duplicate (rehash : String → Nat → String) :
    ∀ fuel : Nat, prw_id_ensure_unique rehash fuel [(0, "7"), (1, "7")] = none := by
  have hdup : duplicatedIdx [((0 : Nat), "7"), (1, "7")] = [1] := by decide
  have hne : ¬ duplicatedIdx [((0 : Nat), "7"), (1, "7")] = [] := by
    rw [hdup]; simp
  have hstep : ensureUniqueStep rehash [((0 : Nat), "7"), (1, "7")] =
      [(0, "7"), (1, "7")] := by
    rw [ensureUniqueStep, hdup]
    rfl
  intro fuel
  induction fuel with
  | zero => simp only [prw_id_ensure_unique, if_neg hne]
  | succ n ih =>
    simp only [prw_id_ensure_unique, if_neg hne, hstep]
    exact ih

/-- C3: prw_id_base is the fixed decimal-string rendering of the 32-bit hash
of salt#source_id (pure and repeatable), and for a source id already present
in the existing mapping, a completed calc_prw_id run assigns exactly the
stored pseudonymous id: no recomputation changes it. -/
theorem calc_prw_id_reuses_existing (fuel : Nat) (batch : List String)
    (existing : List (String × String)) (asg nr : List (String × String))
    (s pid : String)
    (hlk : lookupMap existing s = some pid) (hs : s ∈ batch)
    (hrun : calc_prw_id fuel batch existing = some (asg, nr)) :
    (∀ q : String, prw_id_base q = toString (fnvHash32 (PRW_ID_SALT ++ "#" ++ q)) ∧
        fnvHash32 (PRW_ID_SALT ++ "#" ++ q) < 2 ^ 32) ∧
    (s, pid) ∈ asg ∧ ∀ q : String, (s, q) ∈ asg → q = pid := by
  refine ⟨fun q => ⟨rfl, fnvHash32_lt _⟩, ?_⟩
  simp only [calc_prw_id] at hrun
  split at hrun
  next => cases hrun
  next rows1 hA =>
    split at hrun
    next => cases hrun
    next rows2 hB =>
      rw [Option.some.injEq, Prod.mk.injEq] at hrun
      obtain ⟨h1, h2⟩ := hrun
      have hfind :
          (((batch.enum.filter (fun p => (lookupMap existing p.2).isNone)).map
              Prod.snd).zip (rows2.map Prod.snd)).find?
            (fun r => decide (r.1 = s)) = none := by
        rw [List.find?_eq_none]
        intro r hr
        simp only [decide_eq_true_eq]
        intro hrs
        have hr1 := (List.of_mem_zip hr).1
        obtain ⟨p, hp, hps⟩ := List.mem_map.mp hr1
        have hnone := (List.mem_filter.mp hp).2
        rw [hps, hrs] at hnone
        rw [hlk] at hnone
        cases hnone
      constructor
      · rw [← h1]
        refine List.mem_map.mpr ⟨s, hs, ?_⟩
        rw [hfind, hlk]
        rfl
      · intro q hq
        rw [← h1] at hq
        obtain ⟨t, _, hteq⟩ := List.mem_map.mp hq
        rw [Prod.mk.injEq] at hteq
        obtain ⟨hts, hq2⟩ := hteq
        rw [hts] at hq2
        rw [hfind, hlk] at hq2
        exact hq2.symm

/-- Concrete run of the C1 theorem: one new source id "b" resolved against an
existing mapping row, with the injectivity conclusion evaluated. -/
theorem calc_prw_id_union_injective_witness :
    calc_prw_id 1 ["b"] [("x", "9")] =
      some ([("b", "3031661907")], [("b", "3031661907")]) ∧
    (([("x", "9")] ++ [("b", "3031661907")] : List (String × String)).map
      Prod.snd).Nodup :=
  ⟨by decide,
   calc_prw_id_union_injective 1 ["b"] [("x", "9")] [("b", "3031661907")]
     [("b", "3031661907")] (by decide) (by decide)⟩

/-- Concrete run of the C3 theorem: source id "a" is already mapped to "77"
and a completed run hands back exactly that assignment. -/
theorem calc_prw_id_reuses_existing_witness :
    lookupMap [("a", "77")] "a" = some "77" ∧
    calc_prw_id 0 ["a"] [("a", "77")] = some ([("a", "77")], []) ∧
    ("a", "77") ∈ [(("a" : String), "77")] :=
  ⟨by decide, by decide,
   (calc_prw_id_reuses_existing 0 ["a"] [("a", "77")] [("a", "77")] [] "a" "77"
     (by decide) (by decide) (by decide)).2.1⟩

/-- An encounter that is not a well type and whose diagnosis contains no
keyword, but starts with a letter drawn from a keyword. -/
def dxClassFalsePositive : Encounter :=
  ⟨"p1", 0, "X", "Y", "CC OFFICE VISIT", "Completed", "acute bronchitis"⟩

/-- An encounter whose diagnosis contains the keyword "well child" but starts
with a character outside every keyword's character class. -/
def dxClassFalseNegative : Encounter :=
  ⟨"p1", 0, "X", "Y", "CC OFFICE VISIT", "Completed", "routine well child check"⟩

/-- C5 fails on the code: WELL_DX_REGEX joins the keywords as bracketed
character classes and str.match anchors at the start, so the computed flag
tests only whether the first character of the diagnosis text is one of the
keyword letters.  "acute bronchitis" (no keyword substring) is flagged well,
while "routine well child check" (contains "well child") is not, the opposite
of the substring semantics the claim states. -/
theorem is_well_visit_contradicts_substring_semantics :
    is_well_visit dxClassFalsePositive = true ∧
    is_well_spec dxClassFalsePositive = false ∧
    is_well_visit dxClassFalseNegative = false ∧
    is_well_spec dxClassFalseNegative = true := by
  decide

/-- Members of an insertion are the inserted element or old members. -/
theorem mem_insertByDate {a e : Encounter} :
    ∀ {l : List Encounter}, a ∈ insertByDate e l ↔ a = e ∨ a ∈ l := by
  intro l
  induction l with
  | nil => simp [insertByDate]
  | cons x xs ih =>
    by_cases h : e.encounter_date ≤ x.encounter_date
    · rw [insertByDate, if_pos h, List.mem_cons, ih, List.mem_cons]
      tauto
    · rw [insertByDate, if_neg h, List.mem_cons, List.mem_cons]

/-- Members of the descending sort are members of the list. -/
theorem mem_sortByDateDesc {a : Encounter} :
    ∀ {l : List Encounter}, a ∈ sortByDateDesc l ↔ a ∈ l := by
  intro l
  induction l with
  | nil => simp [sortByDateDesc]
  | cons x xs ih =>
    show a ∈ insertByDate x (sortByDateDesc xs) ↔ _
    rw [mem_insertByDate, ih, List.mem_cons]

/-- Sorting preserves length. -/
theorem length_insertByDate (e : Encounter) :
    ∀ (l : List Encounter), (insertByDate e l).length = l.length + 1 := by
  intro l
  induction l with
  | nil => rfl
  | cons x xs ih =>
    by_cases h : e.encounter_date ≤ x.encounter_date
    · rw [insertByDate, if_pos h, List.length_cons, ih, List.length_cons]
    · rw [insertByDate, if_neg h, List.length_cons, List.length_cons]

/-- Sorting preserves length. -/
theorem length_sortByDateDesc :
    ∀ (l : List Encounter), (sortByDateDesc l).length = l.length := by
  intro l
  induction l with
  | nil => rfl
  | cons x xs ih =>
    show (insertByDate x (sortByDateDesc xs)).length = _
    rw [length_insertByDate, ih, List.length_cons]

/-- Inserting an element later than everything in the suffix ignores the
suffix. -/
theorem insertByDate_append_right (e : Encounter) :
    ∀ (A B : List Encounter), (∀ b ∈ B, b.encounter_date < e.encounter_date) →
      insertByDate e (A ++ B) = insertByDate e A ++ B := by
  intro A
  induction A with
  | nil =>
    intro B hB
    cases B with
    | nil => rfl
    | cons b bs =>
      have hnb : ¬ e.encounter_date ≤ b.encounter_date := by
        have := hB b (by simp)
        omega
      show insertByDate e (b :: bs) = e :: b :: bs
      rw [insertByDate, if_neg hnb]
  | cons a as ih =>
    intro B hB
    by_cases h : e.encounter_date ≤ a.encounter_date
    · show insertByDate e (a :: (as ++ B)) = insertByDate e (a :: as) ++ B
      rw [insertByDate, if_pos h, insertByDate, if_pos h]
      show a :: insertByDate e (as ++ B) = a :: (insertByDate e as ++ B)
      rw [ih B hB]
    · show insertByDate e (a :: (as ++ B)) = insertByDate e (a :: as) ++ B
      rw [insertByDate, if_neg h, insertByDate, if_neg h]
      rfl

/-- Inserting an element no later than everything in the prefix skips the
prefix. -/
theorem insertByDate_append_left (e : Encounter) :
    ∀ (A B : List Encounter), (∀ a ∈ A, e.encounter_date ≤ a.encounter_date) →
      insertByDate e (A ++ B) = A ++ insertByDate e B := by
  intro A
  induction A with
  | nil => intro B _; rfl
  | cons a as ih =>
    intro B hA
    have h : e.encounter_date ≤ a.encounter_date := hA a (by simp)
    show insertByDate e (a :: (as ++ B)) = a :: (as ++ insertByDate e B)
    rw [insertByDate, if_pos h]
    show a :: insertByDate e (as ++ B) = a :: (as ++ insertByDate e B)
    rw [ih B (fun x hx => hA x (by simp [hx]))]

/-- Descending stable sort splits over a date threshold: the encounters at or
after the cutoff come first, sorted, followed by the older ones, sorted. -/
theorem sortByDateDesc_split (cut : Nat) :
    ∀ (l : List Encounter),
      sortByDateDesc l =
        sortByDateDesc (l.filter (fun e => decide (cut ≤ e.encounter_date))) ++
          sortByDateDesc (l.filter (fun e => !decide (cut ≤ e.encounter_date))) := by
  intro l
  induction l with
  | nil => rfl
  | cons x xs ih =>
    show insertByDate x (sortByDateDesc xs) = _
    by_cases hx : cut ≤ x.encounter_date
    · rw [List.filter_cons_of_pos (by simp [hx]),
        List.filter_cons_of_neg (by simp [hx])]
      show _ = insertByDate x (sortByDateDesc _) ++ _
      rw [ih, insertByDate_append_right]
      intro b hb
      rw [mem_sortByDateDesc] at hb
      have := List.of_mem_filter hb
      simp only [Bool.not_eq_true', decide_eq_false_iff_not] at this
      omega
    · rw [List.filter_cons_of_neg (by simp [hx]),
        List.filter_cons_of_pos (by simp [hx])]
      show _ = _ ++ insertByDate x (sortByDateDesc _)
      rw [ih, insertByDate_append_left]
      intro a ha
      rw [mem_sortByDateDesc] at ha
      have := List.of_mem_filter ha
      simp only [decide_eq_true_eq] at this
      omega

/-- A nonempty list has isEmpty false. -/
theorem isEmpty_eq_false_of_ne {l : List Encounter} (h : l ≠ []) : l.isEmpty = false := by
  cases l with
  | nil => exact absurd rfl h
  | cons a as => rfl

/-- isEmpty certifies nil. -/
theorem eq_nil_of_isEmpty {l : List Encounter} (h : l.isEmpty = true) : l = [] := by
  cases l with
  | nil => rfl
  | cons a as => cases h

/-- Every last-year encounter is a trailing-2-year encounter. -/
theorem lastYear_subset_recent (c : Clock) (E3 : List Encounter) (pid : String) :
    ∀ e ∈ lastYearOf c E3 pid, e ∈ recentOf c E3 pid := by
  intro e he
  simp only [lastYearOf, List.mem_filter, decide_eq_true_eq] at he
  simp only [recentOf, List.mem_filter, decide_eq_true_eq]
  exact ⟨he.1, le_trans (le_trans c.h215 c.h151) he.2⟩

/-- With at least 3 last-year encounters, the 3 most recent encounters of the
full 3-year window coincide with the 3 most recent last-year encounters: all
last-year encounters sort before the strictly older ones. -/
theorem take3_lastYear_eq_take3_full (c : Clock) (E3 : List Encounter) (pid : String)
    (h3 : 3 ≤ (lastYearOf c E3 pid).length) :
    (sortByDateDesc (patientSlice E3 pid)).take 3 =
      (sortByDateDesc (lastYearOf c E3 pid)).take 3 := by
  rw [sortByDateDesc_split c.oneYearAgo (patientSlice E3 pid)]
  rw [List.take_append_of_le_length (by rw [length_sortByDateDesc]; exact h3)]
  rfl

/-- C6: Stage 1 Rule 3 holds exactly when the patient has no well visit in
the trailing 2 years, at least 3 encounters in the trailing 1 year of which a
strict majority are peds, and at least one of the 3 most recent encounters of
the full 3-year window is peds. -/
theorem meetsRule3_characterization (c : Clock) (E3 : List Encounter) (pid : String) :
    meetsRule3 c E3 pid = true ↔
      ((recentOf c E3 pid).filter is_well_visit = [] ∧
       3 ≤ (lastYearOf c E3 pid).length ∧
       (lastYearOf c E3 pid).length < 2 * (lastYearOf c E3 pid).countP is_peds_encounter ∧
       ((sortByDateDesc (patientSlice E3 pid)).take 3).any is_peds_encounter = true) := by
  constructor
  · intro h
    simp only [meetsRule3, Bool.and_eq_true, Bool.not_eq_true', decide_eq_true_eq] at h
    obtain ⟨⟨⟨⟨⟨⟨hA, hB⟩, hC⟩, hD⟩, hE⟩, hF⟩, hG⟩ := h
    refine ⟨eq_nil_of_isEmpty hC, hD, hE, ?_⟩
    rw [take3_lastYear_eq_take3_full c E3 pid hD]
    exact hG
  · rintro ⟨h1, h2, h3, h4⟩
    have hlyne : lastYearOf c E3 pid ≠ [] := by
      intro hnil
      rw [hnil] at h2
      simp at h2
    obtain ⟨e, he⟩ := List.exists_mem_of_ne_nil _ hlyne
    have herec : e ∈ recentOf c E3 pid := lastYear_subset_recent c E3 pid e he
    have heslice : e ∈ patientSlice E3 pid := by
      have := List.mem_filter.mp herec
      exact this.1
    simp only [meetsRule3, Bool.and_eq_true, Bool.not_eq_true', decide_eq_true_eq]
    refine ⟨⟨⟨⟨⟨⟨?_, ?_⟩, ?_⟩, h2⟩, h3⟩, ?_⟩, ?_⟩
    · exact isEmpty_eq_false_of_ne (fun hn => by rw [hn] at herec; cases herec)
    · exact isEmpty_eq_false_of_ne hlyne
    · rw [h1]; rfl
    · exact isEmpty_eq_false_of_ne (fun hn => by rw [hn] at heslice; cases heslice)
    · rw [← take3_lastYear_eq_take3_full c E3 pid h2]
      exact h4

/-- A pointwise relation between a list and its map. -/
theorem forall₂_map_self {α β : Type} (R : α → β → Prop) (f : α → β) :
    ∀ (l : List α), (∀ a ∈ l, R a (f a)) → List.Forall₂ R l (l.map f) := by
  intro l
  induction l with
  | nil => intro _; exact List.Forall₂.nil
  | cons x xs ih =>
    intro h
    exact List.Forall₂.cons (h x (by simp)) (ih (fun a ha => h a (by simp [ha])))

/-- A patient with either panel field set fails the both-unset candidate
filter. -/
theorem settled_not_candidate (p : Patient)
    (hset : p.panel_provider ≠ none ∨ p.panel_location ≠ none) :
    isCandidate p = false := by
  rw [isCandidate]
  rcases hset with h | h
  · cases hprov : p.panel_provider with
    | none => exact absurd hprov h
    | some v => rfl
  · cases hloc : p.panel_location with
    | none => exact absurd hloc h
    | some v => cases p.panel_provider <;> rfl

/-- Under unique patient ids, a non-candidate's id is never among the
empaneled ids (those come from candidate rows only). -/
theorem prw_id_notMem_empaneledIds (c : Clock) (E : List Encounter) (P : List Patient)
    (hnd : (P.map Patient.prw_id).Nodup) (p : Patient) (hp : p ∈ P)
    (hset : isCandidate p = false) : p.prw_id ∉ empaneledIds c E P := by
  intro hmem
  simp only [empaneledIds, List.mem_map] at hmem
  obtain ⟨q, hq, hqid⟩ := hmem
  have hq2 := List.mem_filter.mp hq
  have hq3 := List.mem_filter.mp hq2.1
  have hqp : q = p := List.inj_on_of_nodup_map hnd hq3.1 hp hqid
  rw [hqp] at hq3
  rw [hset] at hq3
  cases hq3.2

/-- C4: running Stage 1 and then Stage 2 never alters a patient either of
whose panel fields is already set: position by position, every settled
patient's record is returned unchanged (so in particular both panel fields
keep their prior values). -/
theorem panel_stages_preserve_settled (c : Clock) (E : List Encounter) (P : List Patient)
    (hnd : (P.map Patient.prw_id).Nodup) :
    List.Forall₂
      (fun p q => (p.panel_provider ≠ none ∨ p.panel_location ≠ none) → q = p)
      P (transform_add_other_panels c E (transform_add_peds_panels c E P)) := by
  simp only [transform_add_other_panels, transform_add_peds_panels, List.map_map]
  refine forall₂_map_self _ _ P ?_
  intro p hp hset
  have hcf : isCandidate p = false := settled_not_candidate p hset
  have hnotmem := prw_id_notMem_empaneledIds c E P hnd p hp hcf
  simp only [Function.comp_apply]
  rw [if_neg hnotmem]
  rw [if_neg (by simp [hcf])]

/-- Concrete instance of the C4 theorem: a settled patient is returned
unchanged by the composed stages. -/
def clockZero : Clock := ⟨0, 0, 0, 0, le_refl 0, le_refl 0, le_refl 0⟩

/-- A patient already empaneled before the run. -/
def settledPatient : Patient :=
  ⟨"p0", 40, some "CARGILL, TERESA", some "Pullman Family Medicine"⟩

/-- Witness for the C4 theorem at a concrete settled patient. -/
theorem panel_stages_preserve_settled_witness :
    (([settledPatient] : List Patient).map Patient.prw_id).Nodup ∧
    List.Forall₂
      (fun p q => (p.panel_provider ≠ none ∨ p.panel_location ≠ none) → q = p)
      [settledPatient]
      (transform_add_other_panels clockZero []
        (transform_add_peds_panels clockZero [] [settledPatient])) :=
  ⟨by decide, panel_stages_preserve_settled clockZero [] [settledPatient] (by decide)⟩

/-- Each of rules 1 to 3 implies the patient has a trailing-2-year
encounter. -/
theorem recent_ne_of_rule (c : Clock) (E3 : List Encounter) (pid : String)
    (h : meetsRule1 c E3 pid = true ∨ meetsRule2 c E3 pid = true ∨
      meetsRule3 c E3 pid = true) :
    (recentOf c E3 pid).isEmpty = false := by
  rcases h with h | h | h
  · simp only [meetsRule1, Bool.and_eq_true, Bool.not_eq_true'] at h
    exact h.1.1
  · simp only [meetsRule2, Bool.and_eq_true, Bool.not_eq_true'] at h
    exact h.1
  · simp only [meetsRule3, Bool.and_eq_true, Bool.not_eq_true'] at h
    exact h.1.1.1.1.1.1

/-- Under unique patient ids, a patient whose should_empanel verdict is false
is never among the empaneled ids. -/
theorem prw_id_notMem_empaneledIds_of_noEmpanel (c : Clock) (E : List Encounter)
    (P : List Patient) (hnd : (P.map Patient.prw_id).Nodup) (p : Patient) (hp : p ∈ P)
    (hemp : shouldEmpanel c (threeYearEncounters c E) p = false) :
    p.prw_id ∉ empaneledIds c E P := by
  intro hmem
  simp only [empaneledIds, List.mem_map] at hmem
  obtain ⟨q, hq, hqid⟩ := hmem
  have hq2 := List.mem_filter.mp hq
  have hq3 := List.mem_filter.mp hq2.1
  have hqp : q = p := List.inj_on_of_nodup_map hnd hq3.1 hp hqid
  rw [hqp] at hq2
  rw [hemp] at hq2
  cases hq2.2

/-- C7: an under-3 candidate matching some of rules 1 to 3 but with no peds
encounter in the trailing 15 months is removed by rule 4, is not empaneled by
Stage 1 (the record keeps both fields unset), and remains in the candidate
set that Stage 2 filters for. -/
theorem rule4_excludes_under3 (c : Clock) (E : List Encounter) (P : List Patient)
    (p : Patient) (hnd : (P.map Patient.prw_id).Nodup) (hp : p ∈ P)
    (hprov : p.panel_provider = none) (hloc : p.panel_location = none)
    (hage : p.age < 3)
    (hrule : meetsRule1 c (threeYearEncounters c E) p.prw_id = true ∨
             meetsRule2 c (threeYearEncounters c E) p.prw_id = true ∨
             meetsRule3 c (threeYearEncounters c E) p.prw_id = true)
    (hnopeds : (patientSlice (threeYearEncounters c E) p.prw_id).filter
        (fun e => decide (c.fifteenMonthsAgo ≤ e.encounter_date) &&
          is_peds_encounter e) = []) :
    shouldRemoveRule4 c (threeYearEncounters c E) p = true ∧
    shouldEmpanel c (threeYearEncounters c E) p = false ∧
    p ∈ (transform_add_peds_panels c E P).filter isCandidate := by
  have hfilter : (recentOf c (threeYearEncounters c E) p.prw_id).filter
      (fun e => decide (c.fifteenMonthsAgo ≤ e.encounter_date) &&
        is_peds_encounter e) = [] := by
    rw [List.eq_nil_iff_forall_not_mem]
    intro e he
    have h1 := List.mem_filter.mp he
    have h2 := List.mem_filter.mp h1.1
    have hmem : e ∈ (patientSlice (threeYearEncounters c E) p.prw_id).filter
        (fun e => decide (c.fifteenMonthsAgo ≤ e.encounter_date) &&
          is_peds_encounter e) :=
      List.mem_filter.mpr ⟨h2.1, h1.2⟩
    rw [hnopeds] at hmem
    exact absurd hmem (List.not_mem_nil _)
  have hrem : shouldRemoveRule4 c (threeYearEncounters c E) p = true := by
    simp only [shouldRemoveRule4, Bool.and_eq_true, Bool.not_eq_true']
    refine ⟨⟨decide_eq_true hage, recent_ne_of_rule c _ p.prw_id hrule⟩, ?_⟩
    rw [hfilter]
    rfl
  have hemp : shouldEmpanel c (threeYearEncounters c E) p = false := by
    simp only [shouldEmpanel, hrem]
    simp
  have hnot := prw_id_notMem_empaneledIds_of_noEmpanel c E P hnd p hp hemp
  have hmem2 : p ∈ transform_add_peds_panels c E P := by
    simp only [transform_add_peds_panels]
    refine List.mem_map.mpr ⟨p, hp, ?_⟩
    rw [if_neg hnot]
  refine ⟨hrem, hemp, List.mem_filter.mpr ⟨hmem2, ?_⟩⟩
  rw [isCandidate, hprov, hloc]
  rfl

/-- Clock for the C7 witness: 3-year cutoff 0, 2-year cutoff 10, 15-month
cutoff 20, 1-year cutoff 30. -/
def clockC7 : Clock := ⟨0, 10, 30, 20, by omega, by omega, by omega⟩

/-- An under-3 candidate patient. -/
def patientC7 : Patient := ⟨"p1", 2, none, none⟩

/-- Three completed peds encounters between the 2-year and 15-month
cutoffs. -/
def encsC7 : List Encounter :=
  [⟨"p1", 11, "CC WPL PALOUSE PEDIATRICS PULLMAN", "X", "CC OFFICE VISIT", "Completed", "zzz"⟩,
   ⟨"p1", 12, "CC WPL PALOUSE PEDIATRICS PULLMAN", "X", "CC OFFICE VISIT", "Completed", "zzz"⟩,
   ⟨"p1", 13, "CC WPL PALOUSE PEDIATRICS PULLMAN", "X", "CC OFFICE VISIT", "Completed", "zzz"⟩]

/-- Witness for the C7 theorem: the concrete patient satisfies rule 1 yet is
excluded by rule 4 and stays an unset candidate. -/
theorem rule4_excludes_under3_witness :
    meetsRule1 clockC7 (threeYearEncounters clockC7 encsC7) "p1" = true ∧
    shouldRemoveRule4 clockC7 (threeYearEncounters clockC7 encsC7) patientC7 = true ∧
    shouldEmpanel clockC7 (threeYearEncounters clockC7 encsC7) patientC7 = false ∧
    patientC7 ∈ (transform_add_peds_panels clockC7 encsC7 [patientC7]).filter isCandidate := by
  have h := rule4_excludes_under3 clockC7 encsC7 [patientC7] patientC7 (by decide)
    (by decide) (by decide) (by decide) (by decide) (Or.inl (by decide)) (by decide)
  exact ⟨by decide, h.1, h.2.1, h.2.2⟩

/-- The key column of a filterMap tagging each id with an optional value is
the filter of the ids whose value exists. -/
theorem map_fst_filterMap_key (f : String → Option String) :
    ∀ (l : List String),
      ((l.filterMap (fun pid => (f pid).map (fun pr => (pid, pr)))).map Prod.fst) =
        l.filter (fun pid => (f pid).isSome) := by
  intro l
  induction l with
  | nil => rfl
  | cons x xs ih =>
    rw [List.filterMap_cons, List.filter_cons]
    cases hf : f x with
    | none =>
      simp only [Option.map_none', Option.isSome_none]
      rw [if_neg (by simp)]
      exact ih
    | some pr =>
      simp only [Option.map_some', Option.isSome_some]
      rw [if_pos trivial, List.map_cons]
      rw [ih]

/-- Searching an append skips a prefix with no match. -/
theorem find?_append_of_none {α : Type} (p : α → Bool) (l2 : List α) :
    ∀ (l1 : List α), l1.find? p = none → (l1 ++ l2).find? p = l2.find? p := by
  intro l1
  induction l1 with
  | nil => intro _; rfl
  | cons x xs ih =>
    intro h
    by_cases hx : p x = true
    · rw [List.find?_cons_of_pos _ hx] at h
      cases h
    · rw [List.find?_cons_of_neg _ hx] at h
      rw [List.cons_append, List.find?_cons_of_neg _ hx]
      exact ih h

/-- Searching an append returns the prefix hit when there is one. -/
theorem find?_append_of_some {α : Type} (p : α → Bool) (l2 : List α) {a : α} :
    ∀ (l1 : List α), l1.find? p = some a → (l1 ++ l2).find? p = some a := by
  intro l1
  induction l1 with
  | nil => intro h; cases h
  | cons x xs ih =>
    intro h
    by_cases hx : p x = true
    · rw [List.find?_cons_of_pos _ hx] at h
      rw [List.cons_append, List.find?_cons_of_pos _ hx]
      exact h
    · rw [List.find?_cons_of_neg _ hx] at h
      rw [List.cons_append, List.find?_cons_of_neg _ hx]
      exact ih h

/-- Looking a key up in a key-tagged filterMap finds the tagged value. -/
theorem find?_filterMap_key (f : String → Option String) (pid pr : String) :
    ∀ (l : List String), pid ∈ l → f pid = some pr →
      ((l.filterMap (fun x => (f x).map (fun y => (x, y)))).find?
        (fun a => decide (a.1 = pid))) = some (pid, pr) := by
  intro l
  induction l with
  | nil => intro h _; cases h
  | cons x xs ih =>
    intro hmem hf
    by_cases hx : x = pid
    · subst hx
      rw [List.filterMap_cons, hf]
      simp only [Option.map_some']
      rw [List.find?_cons_of_pos _ (by simp)]
    · have hmem2 : pid ∈ xs :=
        (List.mem_cons.mp hmem).resolve_left (fun h => hx h.symm)
      rw [List.filterMap_cons]
      cases hfx : f x with
      | none =>
        simp only [Option.map_none']
        exact ih hmem2 hf
      | some y =>
        simp only [Option.map_some']
        rw [List.find?_cons_of_neg _ (by simp [hx])]
        exact ih hmem2 hf

/-- Two mutually exclusive counts are bounded by the length. -/
theorem countP_disjoint_le_length {α : Type} (p q : α → Bool) :
    ∀ (l : List α), (∀ a ∈ l, ¬(p a = true ∧ q a = true)) →
      l.countP p + l.countP q ≤ l.length := by
  intro l
  induction l with
  | nil => intro _; simp
  | cons x xs ih =>
    intro h
    rw [List.countP_cons, List.countP_cons, List.length_cons]
    have hx := h x (by simp)
    have hxs := ih (fun a ha => h a (by simp [ha]))
    by_cases hp : p x = true
    · have hq : ¬ q x = true := fun hq => hx ⟨hp, hq⟩
      rw [if_pos hp, if_neg hq]
      omega
    · rw [if_neg hp]
      by_cases hq : q x = true
      · rw [if_pos hq]; omega
      · rw [if_neg hq]; omega

/-- At most one provider can hold a strict majority of a patient's visits. -/
theorem majority_unique (rR : List Encounter) (pid : String) (pr1 pr2 : String)
    (h1 : totalVisits rR pid < 2 * visitsWith rR pid pr1)
    (h2 : totalVisits rR pid < 2 * visitsWith rR pid pr2) : pr1 = pr2 := by
  by_contra hne
  have hle : visitsWith rR pid pr1 + visitsWith rR pid pr2 ≤ totalVisits rR pid := by
    simp only [visitsWith, totalVisits]
    refine countP_disjoint_le_length _ _ _ ?_
    intro a _ hcontra
    simp only [decide_eq_true_eq] at hcontra
    exact hne (hcontra.1.symm.trans hcontra.2)
  omega

/-- majorityProvider returns pr exactly when pr is a distinct provider of the
patient holding a strict majority of the visits. -/
theorem majorityProvider_eq_some_iff (rR : List Encounter) (pid pr : String) :
    majorityProvider rR pid = some pr ↔
      (pr ∈ provsOf rR pid ∧ totalVisits rR pid < 2 * visitsWith rR pid pr) := by
  constructor
  · intro h
    simp only [majorityProvider] at h
    have hmem := List.mem_of_find?_eq_some h
    have hpred := List.find?_some h
    simp only [decide_eq_true_eq] at hpred
    exact ⟨hmem, hpred⟩
  · rintro ⟨hmem, hmaj⟩
    cases hfind : majorityProvider rR pid with
    | none =>
      simp only [majorityProvider, List.find?_eq_none] at hfind
      have := hfind pr hmem
      simp only [decide_eq_true_eq] at this
      exact absurd hmaj this
    | some x =>
      have hfind2 := hfind
      simp only [majorityProvider] at hfind2
      have hxp := List.find?_some hfind2
      simp only [decide_eq_true_eq] at hxp
      have hpx : pr = x := majority_unique rR pid pr x hmaj hxp
      rw [hpx]

/-- Membership in the 2nd-cut table unpacked. -/
theorem mem_cut2_iff (rR : List Encounter) (pid pr : String) :
    (pid, pr) ∈ cut2Assignments rR ↔
      pid ∈ multiProviderPids rR ∧ majorityProvider rR pid = some pr := by
  rw [cut2Assignments, List.mem_filterMap]
  constructor
  · rintro ⟨a, ha, hfa⟩
    rw [Option.map_eq_some'] at hfa
    obtain ⟨b, hb, heq⟩ := hfa
    rw [Prod.mk.injEq] at heq
    obtain ⟨h1, h2⟩ := heq
    subst h1
    subst h2
    exact ⟨ha, hb⟩
  · rintro ⟨h1, h2⟩
    exact ⟨pid, h1, by rw [h2]; rfl⟩

/-- The 1st-cut key column is the single-provider patient list. -/
theorem cut1_keys (rR : List Encounter) :
    (cut1Assignments rR).map Prod.fst =
      (pidsWithCounts rR).filter (fun pid => decide (distinctProvCount rR pid = 1)) := by
  rw [cut1Assignments, List.map_map]
  have hcomp : (Prod.fst ∘ fun pid => (pid, ((provsOf rR pid).head?).getD "")) =
      fun pid : String => pid := rfl
  rw [hcomp]
  exact List.map_id _

/-- The 2nd-cut key column is the multi-provider patients with a majority. -/
theorem cut2_keys (rR : List Encounter) :
    (cut2Assignments rR).map Prod.fst =
      (multiProviderPids rR).filter (fun pid => (majorityProvider rR pid).isSome) :=
  map_fst_filterMap_key (majorityProvider rR) (multiProviderPids rR)

/-- The 3rd-cut key column is the after-cut-2 patients with a well visit. -/
theorem cut3_keys (rR : List Encounter) :
    (cut3Assignments rR).map Prod.fst =
      (pidsAfterCut2 rR).filter (fun pid => (lastWellProvider rR pid).isSome) :=
  map_fst_filterMap_key (lastWellProvider rR) (pidsAfterCut2 rR)

/-- The 4th-cut key column is the after-cut-3 patients with any encounter. -/
theorem cut4_keys (rR : List Encounter) :
    (cut4Assignments rR).map Prod.fst =
      (pidsAfterCut3 rR).filter (fun pid => (lastProviderSeen rR pid).isSome) :=
  map_fst_filterMap_key (lastProviderSeen rR) (pidsAfterCut3 rR)

/-- A 1st-cut key has exactly one distinct provider. -/
theorem cut1_key_single (rR : List Encounter) {pid : String}
    (h : pid ∈ (cut1Assignments rR).map Prod.fst) : distinctProvCount rR pid = 1 := by
  rw [cut1_keys] at h
  have := (List.mem_filter.mp h).2
  simpa using this

/-- A 2nd-cut key is a multi-provider patient. -/
theorem cut2_key_multi (rR : List Encounter) {pid : String}
    (h : pid ∈ (cut2Assignments rR).map Prod.fst) : pid ∈ multiProviderPids rR := by
  rw [cut2_keys] at h
  exact (List.mem_filter.mp h).1

/-- A 3rd-cut key survived cut 2. -/
theorem cut3_key_after2 (rR : List Encounter) {pid : String}
    (h : pid ∈ (cut3Assignments rR).map Prod.fst) : pid ∈ pidsAfterCut2 rR := by
  rw [cut3_keys] at h
  exact (List.mem_filter.mp h).1

/-- A 4th-cut key survived cut 3. -/
theorem cut4_key_after3 (rR : List Encounter) {pid : String}
    (h : pid ∈ (cut4Assignments rR).map Prod.fst) : pid ∈ pidsAfterCut3 rR := by
  rw [cut4_keys] at h
  exact (List.mem_filter.mp h).1

/-- Surviving cut 3 means surviving cut 2. -/
theorem after3_mem_after2 (rR : List Encounter) {pid : String}
    (h : pid ∈ pidsAfterCut3 rR) : pid ∈ pidsAfterCut2 rR :=
  (List.mem_filter.mp h).1

/-- An after-cut-2 patient is multi-provider. -/
theorem after2_mem_multi (rR : List Encounter) {pid : String}
    (h : pid ∈ pidsAfterCut2 rR) : pid ∈ multiProviderPids rR :=
  (List.mem_filter.mp h).1

/-- A multi-provider patient has more than one distinct provider. -/
theorem multi_gt_one (rR : List Encounter) {pid : String}
    (h : pid ∈ multiProviderPids rR) : 1 < distinctProvCount rR pid := by
  have := (List.mem_filter.mp h).2
  simpa using this

/-- An after-cut-2 patient is not a 2nd-cut key. -/
theorem after2_not_cut2_key (rR : List Encounter) {pid : String}
    (h : pid ∈ pidsAfterCut2 rR) : pid ∉ (cut2Assignments rR).map Prod.fst := by
  intro hmem
  have hpred := (List.mem_filter.mp h).2
  obtain ⟨a, ha, haeq⟩ := List.mem_map.mp hmem
  have : (cut2Assignments rR).any (fun b => decide (b.1 = pid)) = true := by
    rw [List.any_eq_true]
    exact ⟨a, ha, by simp [haeq]⟩
  rw [this] at hpred
  cases hpred

/-- An after-cut-3 patient is not a 3rd-cut key. -/
theorem after3_not_cut3_key (rR : List Encounter) {pid : String}
    (h : pid ∈ pidsAfterCut3 rR) : pid ∉ (cut3Assignments rR).map Prod.fst := by
  intro hmem
  have hpred := (List.mem_filter.mp h).2
  obtain ⟨a, ha, haeq⟩ := List.mem_map.mp hmem
  have : (cut3Assignments rR).any (fun b => decide (b.1 = pid)) = true := by
    rw [List.any_eq_true]
    exact ⟨a, ha, by simp [haeq]⟩
  rw [this] at hpred
  cases hpred

/-- Every assignment key belongs to the patients with qualifying
encounters. -/
theorem key_mem_pidsWithCounts (rR : List Encounter) {a : String × String}
    (h : a ∈ allAssignments rR) : a.1 ∈ pidsWithCounts rR := by
  rw [allAssignments] at h
  rcases List.mem_append.mp h with h | h4
  rotate_left
  · have hk := after2_mem_multi rR
      (after3_mem_after2 rR (cut4_key_after3 rR (List.mem_map_of_mem Prod.fst h4)))
    exact (List.mem_filter.mp hk).1
  rcases List.mem_append.mp h with h | h3
  rotate_left
  · have hk := after2_mem_multi rR (cut3_key_after2 rR (List.mem_map_of_mem Prod.fst h3))
    exact (List.mem_filter.mp hk).1
  rcases List.mem_append.mp h with h1 | h2
  · have hk : a.1 ∈ (cut1Assignments rR).map Prod.fst := List.mem_map_of_mem _ h1
    rw [cut1_keys] at hk
    exact (List.mem_filter.mp hk).1
  · have hk := cut2_key_multi rR (List.mem_map_of_mem Prod.fst h2)
    exact (List.mem_filter.mp hk).1

/-- C10: the concatenated assignment table of the 4-cut cascade has pairwise
distinct patient keys (so the cuts are pairwise disjoint and every patient
receives at most one provider-location assignment), and cut 1 takes exactly
the single-provider patients. -/
theorem cascade_at_most_one_assignment (rR : List Encounter) :
    ((allAssignments rR).map Prod.fst).Nodup ∧
    (∀ pid : String, pid ∈ (cut1Assignments rR).map Prod.fst ↔
      (pid ∈ pidsWithCounts rR ∧ distinctProvCount rR pid = 1)) := by
  have hnd0 : (pidsWithCounts rR).Nodup := List.nodup_dedup _
  have hnd1 : ((cut1Assignments rR).map Prod.fst).Nodup := by
    rw [cut1_keys]
    exact List.Nodup.filter _ hnd0
  have hnd2 : ((cut2Assignments rR).map Prod.fst).Nodup := by
    rw [cut2_keys]
    exact List.Nodup.filter _ (List.Nodup.filter _ hnd0)
  have hnd3 : ((cut3Assignments rR).map Prod.fst).Nodup := by
    rw [cut3_keys]
    exact List.Nodup.filter _ (List.Nodup.filter _ (List.Nodup.filter _ hnd0))
  have hnd4 : ((cut4Assignments rR).map Prod.fst).Nodup := by
    rw [cut4_keys]
    exact List.Nodup.filter _
      (List.Nodup.filter _ (List.Nodup.filter _ (List.Nodup.filter _ hnd0)))
  constructor
  · rw [allAssignments, List.map_append, List.map_append, List.map_append]
    refine List.Nodup.append (List.Nodup.append (List.Nodup.append hnd1 hnd2 ?_) hnd3 ?_)
      hnd4 ?_
    · intro pid h1 h2
      have hone := cut1_key_single rR h1
      have := multi_gt_one rR (cut2_key_multi rR h2)
      omega
    · intro pid h12 h3
      have hafter2 := cut3_key_after2 rR h3
      rcases List.mem_append.mp h12 with h1 | h2
      · have hone := cut1_key_single rR h1
        have := multi_gt_one rR (after2_mem_multi rR hafter2)
        omega
      · exact after2_not_cut2_key rR hafter2 h2
    · intro pid h123 h4
      have hafter3 := cut4_key_after3 rR h4
      rcases List.mem_append.mp h123 with h12 | h3
      · rcases List.mem_append.mp h12 with h1 | h2
        · have hone := cut1_key_single rR h1
          have := multi_gt_one rR (after2_mem_multi rR (after3_mem_after2 rR hafter3))
          omega
        · exact after2_not_cut2_key rR (after3_mem_after2 rR hafter3) h2
      · exact after3_not_cut3_key rR hafter3 h3
  · intro pid
    rw [cut1_keys, List.mem_filter]
    constructor
    · rintro ⟨h1, h2⟩
      exact ⟨h1, by simpa using h2⟩
    · rintro ⟨h1, h2⟩
      exact ⟨h1, by simpa using h2⟩

/-- A patient with a distinct provider has a qualifying encounter. -/
theorem mem_pidsWithCounts_of_provsOf (rR : List Encounter) (pid : String) {pr : String}
    (h : pr ∈ provsOf rR pid) : pid ∈ pidsWithCounts rR := by
  rw [provsOf, List.mem_dedup] at h
  obtain ⟨e, he, _⟩ := List.mem_map.mp h
  have he2 := List.mem_filter.mp he
  rw [pidsWithCounts, List.mem_dedup]
  refine List.mem_map.mpr ⟨e, he2.1, ?_⟩
  simpa using he2.2

/-- Every distinct provider of a recognizedRecent slice is a key of the
provider-location map. -/
theorem lookupLoc_isSome_of_provsOf (c : Clock) (E : List Encounter) (P : List Patient)
    {pid pr : String} (h : pr ∈ provsOf (recognizedRecent c E P) pid) :
    (lookupLoc pr).isSome = true := by
  rw [provsOf, List.mem_dedup] at h
  obtain ⟨e, he, hsp⟩ := List.mem_map.mp h
  have he2 := (List.mem_filter.mp he).1
  simp only [recognizedRecent] at he2
  have := (List.mem_filter.mp he2).2
  rw [hsp] at this
  exact this

/-- For a multi-provider patient appearing in the 2nd-cut table, the merge of
all_assignments resolves to exactly the 2nd-cut row. -/
theorem find?_allAssignments_of_cut2 (rR : List Encounter) (pid pr : String)
    (hc2 : (pid, pr) ∈ cut2Assignments rR) :
    (allAssignments rR).find? (fun a => decide (a.1 = pid)) = some (pid, pr) := by
  obtain ⟨hmulti, hmaj⟩ := (mem_cut2_iff rR pid pr).mp hc2
  have hgt := multi_gt_one rR hmulti
  rw [allAssignments]
  have hfind1 : (cut1Assignments rR).find? (fun a => decide (a.1 = pid)) = none := by
    rw [List.find?_eq_none]
    intro a ha
    simp only [decide_eq_true_eq]
    intro haeq
    have h1 : a.1 ∈ (cut1Assignments rR).map Prod.fst := List.mem_map_of_mem _ ha
    have hone := cut1_key_single rR h1
    rw [haeq] at hone
    omega
  have hfind2 : (cut2Assignments rR).find? (fun a => decide (a.1 = pid)) =
      some (pid, pr) := by
    rw [cut2Assignments]
    exact find?_filterMap_key (majorityProvider rR) pid pr (multiProviderPids rR)
      hmulti hmaj
  rw [List.append_assoc, List.append_assoc]
  rw [find?_append_of_none _ _ (cut1Assignments rR) hfind1]
  exact find?_append_of_some _ _ (cut2Assignments rR) hfind2

/-- C8: for a Stage 2 patient with more than one distinct qualifying
provider, a 2nd-cut row exists for a provider exactly when that provider
holds a strict majority of the patient's qualifying visits; and when it does,
that provider is a recognized key and the final update hands the patient the
provider together with its provider-location map entry. -/
theorem cut2_strict_majority (c : Clock) (E : List Encounter) (P : List Patient)
    (pid pr : String)
    (hmulti : 1 < distinctProvCount (recognizedRecent c E P) pid) :
    ((pid, pr) ∈ cut2Assignments (recognizedRecent c E P) ↔
      (pr ∈ provsOf (recognizedRecent c E P) pid ∧
        totalVisits (recognizedRecent c E P) pid <
          2 * visitsWith (recognizedRecent c E P) pid pr)) ∧
    ((pid, pr) ∈ cut2Assignments (recognizedRecent c E P) →
      (lookupLoc pr).isSome = true ∧
      List.Forall₂
        (fun p q => p.prw_id = pid → p.panel_provider = none → p.panel_location = none →
          q.panel_provider = some pr ∧ q.panel_location = lookupLoc pr)
        P (transform_add_other_panels c E P)) := by
  constructor
  · constructor
    · intro h
      obtain ⟨_, hmaj⟩ := (mem_cut2_iff _ pid pr).mp h
      exact (majorityProvider_eq_some_iff _ pid pr).mp hmaj
    · rintro ⟨hmem, hmaj⟩
      refine (mem_cut2_iff _ pid pr).mpr ⟨?_, ?_⟩
      · refine List.mem_filter.mpr
          ⟨mem_pidsWithCounts_of_provsOf _ pid hmem, by simpa using hmulti⟩
      · exact (majorityProvider_eq_some_iff _ pid pr).mpr ⟨hmem, hmaj⟩
  · intro hc2
    have hprovs : pr ∈ provsOf (recognizedRecent c E P) pid :=
      ((majorityProvider_eq_some_iff _ pid pr).mp
        ((mem_cut2_iff _ pid pr).mp hc2).2).1
    refine ⟨lookupLoc_isSome_of_provsOf c E P hprovs, ?_⟩
    have hfind := find?_allAssignments_of_cut2 _ pid pr hc2
    simp only [transform_add_other_panels]
    refine forall₂_map_self _ _ P ?_
    intro p hp hpid hprov hloc
    have hcand : isCandidate p = true := by
      rw [isCandidate, hprov, hloc]
      rfl
    rw [if_pos hcand, hpid, hfind]
    exact ⟨rfl, rfl⟩

/-- An unassigned patient for the C8 witness. -/
def patientC8 : Patient := ⟨"p1", 30, none, none⟩

/-- Four qualifying encounters: three with one recognized provider and one
with another, a 75 percent strict majority. -/
def encsC8 : List Encounter :=
  [⟨"p1", 1, "D", "CARGILL, TERESA", "T", "Completed", "zzz"⟩,
   ⟨"p1", 2, "D", "CARGILL, TERESA", "T", "Completed", "zzz"⟩,
   ⟨"p1", 3, "D", "CARGILL, TERESA", "T", "Completed", "zzz"⟩,
   ⟨"p1", 4, "D", "HALL, STEPHEN", "T", "Completed", "zzz"⟩]

/-- Witness for the C8 theorem: the majority provider is assigned by cut 2 at
a concrete multi-provider patient. -/
theorem cut2_strict_majority_witness :
    ("p1", "CARGILL, TERESA") ∈ cut2Assignments (recognizedRecent clockZero encsC8 [patientC8]) :=
  ((cut2_strict_majority clockZero encsC8 [patientC8] "p1" "CARGILL, TERESA"
    (by decide)).1).mpr (by decide)

/-- An encounter whose provider is not in the provider-location map is
dropped by the recognized-provider filter wherever it appears. -/
theorem recognizedRecent_cons_unrecognized (c : Clock) (E : List Encounter)
    (P : List Patient) (e : Encounter) (h : lookupLoc e.service_provider = none) :
    recognizedRecent c (e :: E) P = recognizedRecent c E P := by
  simp only [recognizedRecent, List.filter_cons]
  by_cases h1 : decide (e.prw_id ∈ (P.filter isCandidate).map Patient.prw_id) = true
  · rw [if_pos h1]
    rw [List.filter_cons]
    by_cases h2 : decide (c.twoYearsAgo ≤ e.encounter_date) = true
    · rw [if_pos h2]
      rw [List.filter_cons]
      rw [if_neg (by rw [h]; simp)]
    · rw [if_neg h2]
  · rw [if_neg h1]

/-- Stage 2 is unchanged by adding an unrecognized-provider encounter. -/
theorem stage2_ignores_unrecognized (c : Clock) (E : List Encounter) (P : List Patient)
    (e : Encounter) (h : lookupLoc e.service_provider = none) :
    transform_add_other_panels c (e :: E) P = transform_add_other_panels c E P := by
  simp only [transform_add_other_panels]
  rw [recognizedRecent_cons_unrecognized c E P e h]

/-- A patient id with qualifying counts has a qualifying encounter. -/
theorem exists_enc_of_mem_pidsWithCounts {rR : List Encounter} {pid : String}
    (h : pid ∈ pidsWithCounts rR) : ∃ e ∈ rR, e.prw_id = pid := by
  rw [pidsWithCounts, List.mem_dedup] at h
  obtain ⟨e, he, heq⟩ := List.mem_map.mp h
  exact ⟨e, he, heq⟩

/-- recognizedRecent encounters come from the input frame, inside the
trailing-2-year window. -/
theorem mem_E_of_mem_recognizedRecent (c : Clock) (E : List Encounter)
    (P : List Patient) {e : Encounter} (h : e ∈ recognizedRecent c E P) :
    e ∈ E ∧ c.twoYearsAgo ≤ e.encounter_date := by
  simp only [recognizedRecent] at h
  have h3 := List.mem_filter.mp h
  have h2 := List.mem_filter.mp h3.1
  have h1 := List.mem_filter.mp h2.1
  exact ⟨h1.1, by simpa using h2.2⟩

/-- C9: an encounter with an unrecognized service_provider is ignored by
Stage 2 entirely (the run's outcome is the same without it), a department
outside the peds set is never a peds match, and a candidate patient with no
encounter at all in the 3-year window (hence in no stage's narrower window)
comes out of both total stages with its record, and both unset panel fields,
unchanged: no error is possible since both stages are total functions. -/
theorem missing_reference_data_skipped (c : Clock) (E : List Encounter)
    (P : List Patient) (e : Encounter) (p : Patient) :
    (lookupLoc e.service_provider = none →
      transform_add_other_panels c (e :: E) P = transform_add_other_panels c E P) ∧
    (e.dept ∉ PEDS_LOCATIONS → is_peds_encounter e = false) ∧
    ((P.map Patient.prw_id).Nodup → p ∈ P → p.panel_provider = none →
      p.panel_location = none →
      patientSlice (threeYearEncounters c E) p.prw_id = [] →
      p ∈ transform_add_other_panels c E (transform_add_peds_panels c E P)) := by
  refine ⟨fun h => stage2_ignores_unrecognized c E P e h,
    fun h => by rw [is_peds_encounter]; exact decide_eq_false h, ?_⟩
  intro hnd hp hprov hloc hnoq
  have hrec : recentOf c (threeYearEncounters c E) p.prw_id = [] := by
    rw [recentOf, hnoq]
    rfl
  have hr1 : meetsRule1 c (threeYearEncounters c E) p.prw_id = false := by
    simp [meetsRule1, hrec]
  have hr2 : meetsRule2 c (threeYearEncounters c E) p.prw_id = false := by
    simp [meetsRule2, hrec]
  have hr3 : meetsRule3 c (threeYearEncounters c E) p.prw_id = false := by
    simp [meetsRule3, hrec]
  have hemp : shouldEmpanel c (threeYearEncounters c E) p = false := by
    simp [shouldEmpanel, hr1, hr2, hr3]
  have hnot := prw_id_notMem_empaneledIds_of_noEmpanel c E P hnd p hp hemp
  have hp1 : p ∈ transform_add_peds_panels c E P := by
    simp only [transform_add_peds_panels]
    exact List.mem_map.mpr ⟨p, hp, by rw [if_neg hnot]⟩
  have hfind : (allAssignments
      (recognizedRecent c E (transform_add_peds_panels c E P))).find?
      (fun a => decide (a.1 = p.prw_id)) = none := by
    rw [List.find?_eq_none]
    intro a ha
    simp only [decide_eq_true_eq]
    intro haeq
    have hk := key_mem_pidsWithCounts _ ha
    rw [haeq] at hk
    obtain ⟨enc, henc, hencid⟩ := exists_enc_of_mem_pidsWithCounts hk
    have hEm := mem_E_of_mem_recognizedRecent c E _ henc
    have hmem3 : enc ∈ patientSlice (threeYearEncounters c E) p.prw_id := by
      refine List.mem_filter.mpr ⟨?_, by simpa using hencid⟩
      refine List.mem_filter.mpr ⟨hEm.1, ?_⟩
      have := le_trans c.h32 hEm.2
      simpa using this
    rw [hnoq] at hmem3
    exact absurd hmem3 (List.not_mem_nil _)
  have hcand : isCandidate p = true := by
    rw [isCandidate, hprov, hloc]
    rfl
  simp only [transform_add_other_panels]
  refine List.mem_map.mpr ⟨p, hp1, ?_⟩
  rw [if_pos hcand, hfind]

/-- A completed encounter whose provider is not a key of the map. -/
def unrecognizedEnc : Encounter := ⟨"p1", 1, "D", "NOBODY", "T", "Completed", "zzz"⟩

/-- A candidate patient with no encounters at all. -/
def patientC9 : Patient := ⟨"p2", 30, none, none⟩

/-- Witness for the C9 theorem at concrete inputs. -/
theorem missing_reference_data_skipped_witness :
    (transform_add_other_panels clockZero [unrecognizedEnc] [patientC9] =
      transform_add_other_panels clockZero [] [patientC9]) ∧
    is_peds_encounter unrecognizedEnc = false ∧
    patientC9 ∈ transform_add_other_panels clockZero []
      (transform_add_peds_panels clockZero [] [patientC9]) := by
  have h := missing_reference_data_skipped clockZero [] [patientC9] unrecognizedEnc patientC9
  exact ⟨h.1 (by decide), h.2.1 (by decide),
    h.2.2 (by decide) (by decide) (by decide) (by decide) (by decide)⟩
